import Mathlib

/-!
Verification of the WealthArena feature-engineering and upsert pipeline
(`Data/sqlDB/processAndStore.py`): raw bar ingestion, indicator
computation, staged load, chunked merge into the permanent table.

The embedding uses exact rational arithmetic (`ℚ`) in place of IEEE
doubles for the indicator algebra, and an explicit value type `PVal`
(NaN / ±∞ / finite) where the pipeline's NaN-handling and division
semantics are at stake.
-/

namespace WealthArena

/-- A pandas float cell: NaN (also the representation of a missing
value in a float column), plus or minus infinity, or a finite number
(idealised as an exact rational). -/
inductive PVal where
  | nan
  | posInf
  | negInf
  | num (q : ℚ)
deriving DecidableEq, Repr

/-- `pd.notna` on one cell: false exactly on NaN/None (a missing value
in a float column is stored as NaN, covered by `PVal.nan`); it is TRUE
on plus and minus infinity. -/
def pdNotna : PVal → Bool
  | PVal.nan => false
  | _ => true

/-- One float column of one staged row in `load_stage`:
`float(x) if pd.notna(x) else None`.  `float` is the identity on a
float cell, so the staged value is `none` exactly when `pd.notna` is
false. -/
def stageFloat (v : PVal) : Option PVal :=
  if pdNotna v then some v else none

/-- Truncation toward zero, the behaviour of Python's `int()` on a
finite float: floor for non-negative values, ceiling for negative
ones. -/
def truncToZero (q : ℚ) : ℤ :=
  if 0 ≤ q then ⌊q⌋ else ⌈q⌉

/-- The volume column of one staged row in `load_stage`:
`int(r.Volume) if pd.notna(r.Volume) else None`.  `int()` truncates a
finite float toward zero and raises `OverflowError` on ±∞ (modelled as
`Except.error ()`). -/
def stageVolume : PVal → Except Unit (Option ℤ)
  | PVal.nan => Except.ok none
  | PVal.num q => Except.ok (some (truncToZero q))
  | PVal.posInf => Except.error ()
  | PVal.negInf => Except.error ()

/-- Elementwise float division as numpy/pandas perform it (signed
zeros not modelled): NaN propagates; `x / 0` is NaN for `x = 0` and
±∞ for `x ≠ 0` by the sign of `x`; a finite value over ±∞ is 0; ±∞
over a finite value keeps/flips its sign; ±∞ over ±∞ is NaN.  This is
the operation behind `Volume_Ratio = vol / df["Volume_Sma_20"]` and
`pct_change`. -/
def pdDiv : PVal → PVal → PVal
  | PVal.nan, _ => PVal.nan
  | _, PVal.nan => PVal.nan
  | PVal.num x, PVal.num y =>
      if y = 0 then
        (if x = 0 then PVal.nan else if 0 < x then PVal.posInf else PVal.negInf)
      else PVal.num (x / y)
  | PVal.num _, _ => PVal.num 0
  | PVal.posInf, PVal.num y => if 0 ≤ y then PVal.posInf else PVal.negInf
  | PVal.negInf, PVal.num y => if 0 ≤ y then PVal.negInf else PVal.posInf
  | _, _ => PVal.nan

/-! ## Feature engine (`compute_features`)

Indicator algebra over a fully numeric close series, embedded as
`List ℚ` (position 0 = oldest row, as in the sorted frame). -/

/-- Arithmetic mean of a list of rationals (`sum / len`). -/
def listMean (l : List ℚ) : ℚ := l.sum / l.length

/-- The trailing window of `n` samples ending at position `t`:
elements `t-n+1 … t` of `xs`. -/
def rollingWindow (xs : List ℚ) (n t : ℕ) : List ℚ :=
  (xs.drop (t + 1 - n)).take n

/-- `close.rolling(n).mean()` at position `t`: with pandas' default
`min_periods = n`, the value is defined only once `n` samples exist
(`n ≤ t+1`) and is the mean of the trailing window. -/
def rollingMean (n : ℕ) (xs : List ℚ) (t : ℕ) : Option ℚ :=
  if n ≤ t + 1 ∧ t < xs.length then some (listMean (rollingWindow xs n t)) else none

/-- Variance of a list with delta-degrees-of-freedom `ddof`:
`Σ (x - mean)² / (len - ddof)`. -/
def listVar (ddof : ℕ) (l : List ℚ) : ℚ :=
  (l.map (fun x => (x - listMean l) ^ 2)).sum / ((l.length : ℚ) - ddof)

/-- Rolling variance over a trailing window of `n` samples. -/
def rollingVar (ddof n : ℕ) (xs : List ℚ) (t : ℕ) : Option ℚ :=
  if n ≤ t + 1 ∧ t < xs.length then some (listVar ddof (rollingWindow xs n t)) else none

/-- The square of the Bollinger deviation the SOURCE computes:
`close.rolling(20).std()` — pandas' default is `ddof = 1`, the sample
standard deviation — so the squared value is the divisor-19 variance.
(`ℚ` has no square root; the bands are `Sma_20 ± 2·√(this)`.) -/
def bbVarCode (xs : List ℚ) (t : ℕ) : Option ℚ := rollingVar 1 20 xs t

/-- Modelled from the spec: the square of the "trailing 20-sample
population-style rolling standard deviation" the spec describes for
the Bollinger bands, i.e. the divisor-20 (`ddof = 0`) variance. -/
def bbVarSpec (xs : List ℚ) (t : ℕ) : Option ℚ := rollingVar 0 20 xs t

/-- The recursive tail of `ewm(span, adjust=False).mean()`: given the
previous smoothed value `y`, each new sample `x` contributes
`a*x + (1-a)*y`. -/
def emaRec (a : ℚ) (y : ℚ) : List ℚ → List ℚ
  | [] => []
  | x :: xs =>
      let y1 := a * x + (1 - a) * y
      y1 :: emaRec a y1 xs

/-- `series.ewm(span=s, adjust=False).mean()`: smoothing factor
`α = 2/(span+1)`, seeded by the raw first value (the first output
equals the first input). -/
def ewmMean (span : ℕ) (xs : List ℚ) : List ℚ :=
  match xs with
  | [] => []
  | x :: rest => x :: emaRec (2 / ((span : ℚ) + 1)) x rest

/-- `df["Macd"] = df["Ema_12"] - df["Ema_26"]`: elementwise difference
of the two EMA columns. -/
def macd (xs : List ℚ) : List ℚ :=
  List.zipWith (fun a b => a - b) (ewmMean 12 xs) (ewmMean 26 xs)

/-- Element `t` of a rational series, defaulting to 0 (used to state
positional facts; every use is guarded by a length bound). -/
def nth (l : List ℚ) (t : ℕ) : ℚ := l.getD t 0

/-- Elementwise combination of two nullable columns, with pandas' NaN
propagation: the result is defined only where both operands are. -/
def optMap2 (f : ℚ → ℚ → ℚ) : Option ℚ → Option ℚ → Option ℚ
  | some a, some b => some (f a b)
  | _, _ => none

/-- `df["Bb_Upper"] = mid + 2*std20` at one position: the middle band
plus twice the rolling standard deviation, NaN-propagating. -/
def bbUpper (mid sd : Option ℚ) : Option ℚ :=
  optMap2 (fun m s => m + 2 * s) mid sd

/-- `df["Bb_Lower"] = mid - 2*std20` at one position. -/
def bbLower (mid sd : Option ℚ) : Option ℚ :=
  optMap2 (fun m s => m - 2 * s) mid sd

/-! ## Staging and merge (`load_stage`, `merge_stage`)

The two tables are association lists keyed by (symbol, date); a row's
feature payload is its list of nullable columns after the null-safe
cast. -/

/-- The composite key (symbol, date); dates abstracted as day
numbers. -/
abbrev Key := String × ℕ

/-- One table row: key plus the cast feature columns. -/
abbrev StRow := Key × List (Option PVal)

/-- The database as the pipeline sees it: the transient
`dbo.processed_stage` and the permanent `dbo.processed_prices`. -/
structure DB where
  stage : List StRow
  perm : List StRow
deriving DecidableEq, Repr

/-- `load_stage`: the bulk `INSERT INTO dbo.processed_stage` appends
every given row to the staging table. -/
def loadStage (db : DB) (rows : List StRow) : DB :=
  { db with stage := db.stage ++ rows }

/-- The effect of the `MERGE` statement for one source row: when the
target holds the key, overwrite that row's feature columns with the
staged values; when not, insert the row. -/
def upsert (perm : List StRow) (r : StRow) : List StRow :=
  if perm.any (fun p => p.1 = r.1) then
    perm.map (fun p => if p.1 = r.1 then (p.1, r.2) else p)
  else perm ++ [r]

/-- `merge_stage`: `MERGE dbo.processed_prices USING processed_stage
ON (symbol, date)` — every staged row is upserted into the permanent
table — followed by `TRUNCATE TABLE dbo.processed_stage` in the same
transaction.  (SQL `MERGE` rejects duplicate source keys; the fold is
equivalent on the duplicate-free staging contents the pipeline
produces, and every claim below stages distinct keys.) -/
def mergeStage (db : DB) : DB :=
  { stage := [], perm := db.stage.foldl upsert db.perm }

/-! ## Pipeline driver (`main` with `read_raw_csv`)

A raw CSV is its normalized header plus its parsed rows; the driver
enumerates files 1-based, skips empty results, stages the rest, and
merges every time a staged file's index is divisible by 40, plus a
final merge. -/

/-- One parsed raw-CSV row: whether `pd.to_datetime(..., utc=True,
errors="coerce")` produced a real timestamp (`dateOk`), the resulting
UTC day number, and the numeric close cell (other OHLCV columns are
elided: the claims about them are settled at the cast level). -/
structure RawBar where
  dateOk : Bool
  date : ℕ
  close : PVal
deriving DecidableEq, Repr

/-- One raw file in the object store: the symbol derived from its
name (`name.replace("_raw.csv","").upper()`), its header after
`strip().title()` normalization, and its rows. -/
structure RawCSV where
  sym : String
  header : List String
  rows : List RawBar
deriving DecidableEq, Repr

/-- The columns `read_raw_csv` selects with
`df[["Open","High","Low","Close","Volume","Date"]]`. -/
def requiredCols : List String :=
  ["Open", "High", "Low", "Close", "Volume", "Date"]

/-- Whether the column selection succeeds: every required column is
present in the normalized header (otherwise pandas raises
`KeyError`). -/
def colsOk (f : RawCSV) : Bool :=
  requiredCols.all (fun c => f.header.contains c)

/-- Stable insertion of a row into a date-sorted list
(`sort_values("date")`). -/
def insertByDate (r : RawBar) : List RawBar → List RawBar
  | [] => [r]
  | x :: xs => if r.date ≤ x.date then r :: x :: xs else x :: insertByDate r xs

/-- Sort rows ascending by date. -/
def sortByDate (rs : List RawBar) : List RawBar :=
  rs.foldr insertByDate []

/-- The only error the driver model can surface: the `KeyError` from a
missing required column. -/
inductive PErr where
  | missingColumns
deriving DecidableEq, Repr

/-- `read_raw_csv`: select the required columns (raising on a missing
one), coerce dates and drop rows whose date failed to parse, sort by
date.  The numeric cast of the OHLCV cells is the identity in this
model (cells are already `PVal`). -/
def readRawCsv (f : RawCSV) : Except PErr (List RawBar) :=
  if colsOk f then Except.ok (sortByDate (f.rows.filter (fun r => r.dateOk)))
  else Except.error PErr.missingColumns

/-- An observable event of the driver loop: one file's rows were
staged, or a merge was run. -/
inductive Ev where
  | staged
  | merged
deriving DecidableEq, Repr

/-- What a completed run produces: the final database, the ordered
trace of stage/merge events, and the reported row count. -/
structure RunOut where
  db : DB
  trace : List Ev
  nrows : ℕ
deriving DecidableEq, Repr

/-- The staged rows one file contributes: key (symbol, date) and the
cast close column. -/
def stRowsOf (sym : String) (proc : List RawBar) : List StRow :=
  proc.map (fun r => ((sym, r.date), [stageFloat r.close]))

/-- The driver loop of `main`, from file index `i` (1-based) onward:
read each file (a read error PROPAGATES — `main` has no handler),
skip files whose raw frame is empty, drop rows with NaN close
(`dropna(subset=["Close"])`) and skip files left empty, otherwise
stage the rows, merge when `i % 40 == 0`, and run a final merge after
the last file. -/
def runLoop : List RawCSV → ℕ → DB → ℕ → Except PErr RunOut
  | [], _, db, n => Except.ok ⟨mergeStage db, [Ev.merged], n⟩
  | f :: rest, i, db, n =>
    match readRawCsv f with
    | Except.error e => Except.error e
    | Except.ok raw =>
      if raw.isEmpty then runLoop rest (i + 1) db n
      else
        let proc := raw.filter (fun r => pdNotna r.close)
        if proc.isEmpty then runLoop rest (i + 1) db n
        else
          let db1 := loadStage db (stRowsOf f.sym proc)
          let n1 := n + proc.length
          if i % 40 = 0 then
            match runLoop rest (i + 1) (mergeStage db1) n1 with
            | Except.error e => Except.error e
            | Except.ok out => Except.ok ⟨out.db, Ev.staged :: Ev.merged :: out.trace, out.nrows⟩
          else
            match runLoop rest (i + 1) db1 n1 with
            | Except.error e => Except.error e
            | Except.ok out => Except.ok ⟨out.db, Ev.staged :: out.trace, out.nrows⟩

/-- `main`: run the loop over all discovered files starting at index
1 with both tables as found (empty for a fresh database). -/
def runMain (files : List RawCSV) : Except PErr RunOut :=
  runLoop files 1 ⟨[], []⟩ 0

/-- Whether a file contributes staged rows (is not skipped): its
columns are complete, its raw frame is non-empty, and some row
survives the NaN-close drop. -/
def contributes (f : RawCSV) : Bool :=
  colsOk f &&
    !(sortByDate (f.rows.filter (fun r => r.dateOk))).isEmpty &&
    !((sortByDate (f.rows.filter (fun r => r.dateOk))).filter
        (fun r => pdNotna r.close)).isEmpty

/-- Counts of `staged` events between consecutive `merged` events of a
trace, starting from a pending count `c` (the final entry is the count
after the last merge). -/
def stagedCountsAux : List Ev → ℕ → List ℕ
  | [], c => [c]
  | Ev.staged :: r, c => stagedCountsAux r (c + 1)
  | Ev.merged :: r, c => c :: stagedCountsAux r 0

/-- The per-chunk staged-file counts of a completed run: how many
files' rows were staged before each merge. -/
def runChunks (files : List RawCSV) : Option (List ℕ) :=
  match runMain files with
  | Except.ok out => some (stagedCountsAux out.trace 0)
  | Except.error _ => none

/-! ## Concrete fixtures for counterexamples and witnesses -/

/-- A well-formed one-row raw file. -/
def fileGood : RawCSV := ⟨"BHP", requiredCols, [⟨true, 0, PVal.num 1⟩]⟩

/-- A raw file whose normalized header lacks most required columns
(the column selection raises `KeyError`). -/
def fileBad : RawCSV := ⟨"CBA", ["Open"], [⟨true, 0, PVal.num 1⟩]⟩

/-- A raw file with zero rows (skipped via the `raw.empty` check). -/
def fileEmpty : RawCSV := ⟨"NAB", requiredCols, []⟩

/-- 42 raw files of which exactly the 40th — a chunk boundary — is
empty and therefore skipped. -/
def filesBoundarySkip : List RawCSV :=
  List.replicate 39 fileGood ++ fileEmpty :: fileGood :: fileGood :: []

/-- A two-row FeatureRow series with distinct (symbol, date) keys. -/
def stRowsEx : List StRow :=
  [(("BHP", 0), [some (PVal.num 1)]), (("BHP", 1), [none])]

/-! ## Helper lemmas -/

theorem rollingWindow_length (xs : List ℚ) (n t : ℕ) (h1 : n ≤ t + 1) (h2 : t < xs.length) :
    (rollingWindow xs n t).length = n := by
  simp only [rollingWindow, List.length_take, List.length_drop]
  omega

theorem sum_window (xs : List ℚ) (a n : ℕ) (h : a + n ≤ xs.length) :
    ((xs.drop a).take n).sum = ∑ i ∈ Finset.range n, xs.getD (a + i) 0 := by
  induction n with
  | zero => simp
  | succ m ih =>
    have hm : a + m ≤ xs.length := by omega
    have hlt : a + m < xs.length := by omega
    rw [Finset.sum_range_succ, ← ih hm, List.take_succ, List.sum_append]
    congr 1
    rw [List.getElem?_drop, List.getElem?_eq_getElem hlt]
    simp [List.getD_eq_getElem?_getD, List.getElem?_eq_getElem hlt]

theorem emaRec_length (a y : ℚ) (xs : List ℚ) : (emaRec a y xs).length = xs.length := by
  induction xs generalizing y with
  | nil => rfl
  | cons x xs ih => simp [emaRec, ih]

theorem ewmMean_length (s : ℕ) (xs : List ℚ) : (ewmMean s xs).length = xs.length := by
  cases xs with
  | nil => rfl
  | cons x rest => simp [ewmMean, emaRec_length]

theorem getD_zipWith (f : ℚ → ℚ → ℚ) (l1 l2 : List ℚ) (t : ℕ)
    (h1 : t < l1.length) (h2 : t < l2.length) :
    (List.zipWith f l1 l2).getD t 0 = f (l1.getD t 0) (l2.getD t 0) := by
  induction l1 generalizing l2 t with
  | nil => simp at h1
  | cons a l1 ih =>
    cases l2 with
    | nil => simp at h2
    | cons b l2 =>
      cases t with
      | zero => rfl
      | succ t =>
        simp only [List.zipWith_cons_cons, List.getD_cons_succ]
        exact ih l2 t (by simpa using h1) (by simpa using h2)

/-! ## Claim theorems -/

/-- Claim C7: for a fully numeric close series and each SMA window
`N ∈ {5, 10, 20, 50, 200}`, `close.rolling(N).mean()` is null at every
position `t < N - 1` and, from position `N - 1` on, equals the
arithmetic mean of the closes at positions `t-N+1 … t`. -/
theorem sma_window_mean (xs : List ℚ) (N t : ℕ)
    (hN : N ∈ ([5, 10, 20, 50, 200] : List ℕ)) (ht : t < xs.length) :
    (t < N - 1 → rollingMean N xs t = none) ∧
    (N - 1 ≤ t → rollingMean N xs t =
      some ((∑ i ∈ Finset.range N, xs.getD (t + 1 - N + i) 0) / N)) := by
  constructor
  · intro hlt
    have hnot : ¬(N ≤ t + 1 ∧ t < xs.length) := by omega
    simp only [rollingMean, if_neg hnot]
  · intro hge
    have hcond : N ≤ t + 1 ∧ t < xs.length := ⟨by omega, ht⟩
    have hlen : (rollingWindow xs N t).length = N := rollingWindow_length xs N t hcond.1 ht
    have hsum : (rollingWindow xs N t).sum = ∑ i ∈ Finset.range N, xs.getD (t + 1 - N + i) 0 := by
      rw [rollingWindow]
      exact sum_window xs (t + 1 - N) N (by omega)
    rw [rollingMean, if_pos hcond, listMean, hlen, hsum]

/-- Claim C7 witness: for the five-sample series `1,2,3,4,5`, `Sma_5`
at the last position is defined and equals the mean of the window. -/
theorem sma_window_mean_witness :
    (5 ∈ ([5, 10, 20, 50, 200] : List ℕ) ∧ 4 < ([1, 2, 3, 4, 5] : List ℚ).length) ∧
    ((4 < 5 - 1 → rollingMean 5 [1, 2, 3, 4, 5] 4 = none) ∧
     (5 - 1 ≤ 4 → rollingMean 5 [1, 2, 3, 4, 5] 4 =
       some ((∑ i ∈ Finset.range 5, ([1, 2, 3, 4, 5] : List ℚ).getD (4 + 1 - 5 + i) 0) / 5))) :=
  ⟨⟨by decide, by decide⟩,
   sma_window_mean [1, 2, 3, 4, 5] 5 4 (by decide) (by decide)⟩

/-- Claim C8: at every position of the output, the MACD column is
exactly the difference of the two EMA columns (it is constructed as
their elementwise difference), where each EMA has smoothing factor
`2/(span+1)` and is seeded by the raw first close (its first output
equals the first input). -/
theorem macd_is_ema_diff (xs : List ℚ) (t : ℕ) (ht : t < xs.length) :
    nth (macd xs) t = nth (ewmMean 12 xs) t - nth (ewmMean 26 xs) t ∧
    nth (ewmMean 12 xs) 0 = nth xs 0 ∧ nth (ewmMean 26 xs) 0 = nth xs 0 := by
  refine ⟨?_, ?_, ?_⟩
  · rw [macd, nth, nth, nth]
    exact getD_zipWith _ _ _ t (by rw [ewmMean_length]; exact ht) (by rw [ewmMean_length]; exact ht)
  · cases xs with
    | nil => simp at ht
    | cons x r => rfl
  · cases xs with
    | nil => simp at ht
    | cons x r => rfl

/-- Claim C8 witness: on the two-sample series `1, 3` the MACD at
position 1 equals `Ema_12 - Ema_26` there, and both EMAs are seeded by
the first close. -/
theorem macd_is_ema_diff_witness :
    (1 < ([1, 3] : List ℚ).length) ∧
    (nth (macd [1, 3]) 1 = nth (ewmMean 12 [1, 3]) 1 - nth (ewmMean 26 [1, 3]) 1 ∧
     nth (ewmMean 12 [1, 3]) 0 = nth [1, 3] 0 ∧ nth (ewmMean 26 [1, 3]) 0 = nth [1, 3] 0) :=
  ⟨by decide, macd_is_ema_diff [1, 3] 1 (by decide)⟩

/-- Claim C9: wherever the Bollinger columns are all non-null, the
upper band exceeds the middle band by exactly the amount by which the
middle band exceeds the lower band (they are `mid ± 2·std20`
elementwise, for the same middle and deviation values). -/
theorem bb_bands_symmetric (mid sd : Option ℚ) (m u l : ℚ)
    (hm : mid = some m) (hu : bbUpper mid sd = some u) (hl : bbLower mid sd = some l) :
    u - m = m - l := by
  subst hm
  cases sd with
  | none => simp [bbUpper, optMap2] at hu
  | some s =>
    simp only [bbUpper, bbLower, optMap2, Option.some.injEq] at hu hl
    rw [← hu, ← hl]
    ring

/-- Claim C9 witness: with middle band 10 and rolling deviation 2 the
bands are 14 and 6, symmetric around 10. -/
theorem bb_bands_symmetric_witness :
    bbUpper (some 10) (some 2) = some 14 ∧ bbLower (some 10) (some 2) = some 6 ∧
    (14 : ℚ) - 10 = 10 - 6 := by
  have hu : bbUpper (some 10) (some 2) = some 14 := by norm_num [bbUpper, optMap2]
  have hl : bbLower (some 10) (some 2) = some 6 := by norm_num [bbLower, optMap2]
  exact ⟨hu, hl, bb_bands_symmetric (some 10) (some 2) 10 14 6 rfl hu hl⟩

/-- Claim C3 counterexample: on the 20-sample window of nineteen 0s
followed by one 20, the squared deviation the code computes
(`rolling(20).std()`, divisor 19) is 20, while the population-style
divisor-20 value the claim asserts is 19.  Since the bands are
`Sma_20 ± 2·√(variance)` and the square root is injective on
non-negative rationals, the bands themselves differ. -/
theorem bb_std_divisor_counterexample :
    bbVarCode (List.replicate 19 (0 : ℚ) ++ [20]) 19 = some 20 ∧
    bbVarSpec (List.replicate 19 (0 : ℚ) ++ [20]) 19 = some 19 ∧
    bbVarCode (List.replicate 19 (0 : ℚ) ++ [20]) 19 ≠
      bbVarSpec (List.replicate 19 (0 : ℚ) ++ [20]) 19 := by
  have h1 : bbVarCode (List.replicate 19 (0 : ℚ) ++ [20]) 19 = some 20 := by
    norm_num [bbVarCode, rollingVar, listVar, listMean, rollingWindow, List.replicate]
  have h2 : bbVarSpec (List.replicate 19 (0 : ℚ) ++ [20]) 19 = some 19 := by
    norm_num [bbVarSpec, rollingVar, listVar, listMean, rollingWindow, List.replicate]
  refine ⟨h1, h2, ?_⟩
  rw [h1, h2]
  norm_num

/-- Claim C3 (amended): the Bollinger deviation is the SAMPLE
standard deviation (pandas `rolling(20).std()` default `ddof = 1`,
variance divisor 19, not the population divisor 20): wherever the
window is full, its square is `20/19` times the population
variance. -/
theorem bb_std_is_sample_std (xs : List ℚ) (t : ℕ) (h1 : 20 ≤ t + 1) (h2 : t < xs.length) :
    bbVarCode xs t = (bbVarSpec xs t).map (fun v => (20 / 19) * v) := by
  have hcond : (20 : ℕ) ≤ t + 1 ∧ t < xs.length := ⟨h1, h2⟩
  have hlen : (rollingWindow xs 20 t).length = 20 := rollingWindow_length xs 20 t h1 h2
  rw [bbVarCode, bbVarSpec, rollingVar, rollingVar, if_pos hcond, if_pos hcond]
  simp only [Option.map_some']
  rw [listVar, listVar, hlen]
  norm_num

/-- Claim C3 witness: the sample/population relationship evaluated on
the concrete window of nineteen 0s and one 20. -/
theorem bb_std_is_sample_std_witness :
    (20 ≤ 19 + 1 ∧ 19 < (List.replicate 19 (0 : ℚ) ++ [20]).length) ∧
    bbVarCode (List.replicate 19 (0 : ℚ) ++ [20]) 19 =
      (bbVarSpec (List.replicate 19 (0 : ℚ) ++ [20]) 19).map (fun v => (20 / 19) * v) :=
  ⟨⟨by norm_num, by simp⟩,
   bb_std_is_sample_std (List.replicate 19 (0 : ℚ) ++ [20]) 19 (by norm_num) (by simp)⟩

/-- Claim C2 counterexample: a positive value over a zero denominator
— e.g. `Volume_Ratio` with volume 5 and `Volume_Sma_20` 0 — divides to
+∞, and the stage cast (`float(x) if pd.notna(x) else None`) passes it
through as an infinite float instead of the null the claim
requires (`pd.notna` is true on ±∞). -/
theorem volume_ratio_inf_staged :
    stageFloat (pdDiv (PVal.num 5) (PVal.num 0)) = some PVal.posInf ∧
    stageFloat (pdDiv (PVal.num 5) (PVal.num 0)) ≠ none := by
  constructor
  · norm_num [stageFloat, pdDiv, pdNotna]
  · norm_num [stageFloat, pdDiv, pdNotna]
    simp

/-- Claim C2 (amended): the stage cast nulls exactly the NaN cells:
finite values and ±∞ are staged unchanged.  A `Volume_Ratio` whose
denominator `Volume_Sma_20` is zero is staged as null exactly when the
volume is also zero (`0/0` is NaN); a nonzero volume over a zero
denominator is staged as an infinite float. -/
theorem stage_cast_nulls_nan_only (x : ℚ) :
    (stageFloat (pdDiv (PVal.num x) (PVal.num 0)) = none ↔ x = 0) ∧
    stageFloat PVal.nan = none ∧
    stageFloat (PVal.num x) = some (PVal.num x) ∧
    stageFloat PVal.posInf = some PVal.posInf ∧
    stageFloat PVal.negInf = some PVal.negInf := by
  refine ⟨⟨?_, ?_⟩, rfl, rfl, rfl, rfl⟩
  · intro h
    by_contra hx
    rcases lt_trichotomy x 0 with hlt | heq | hgt
    · simp [pdDiv, stageFloat, pdNotna, hx, not_lt.mpr hlt.le] at h
    · exact hx heq
    · simp [pdDiv, stageFloat, pdNotna, hx, hgt] at h
  · intro hx
    subst hx
    simp [pdDiv, stageFloat, pdNotna]

/-- Claim C10: a finite, non-integer Volume value is staged as its
integer part truncated toward zero — the staged integer has absolute
value at most that of the input, differs from it by strictly less than
one, and the truncation is a strict change — while a NaN Volume is
staged as null. -/
theorem volume_truncated_toward_zero (q : ℚ) (h : q ≠ (truncToZero q : ℚ)) :
    stageVolume (PVal.num q) = Except.ok (some (truncToZero q)) ∧
    |(truncToZero q : ℚ)| ≤ |q| ∧
    |q - (truncToZero q : ℚ)| < 1 ∧
    0 < |q - (truncToZero q : ℚ)| ∧
    stageVolume PVal.nan = Except.ok none := by
  refine ⟨rfl, ?_, ?_, abs_pos.mpr (sub_ne_zero.mpr h), rfl⟩
  · rw [truncToZero]
    by_cases hq : 0 ≤ q
    · rw [if_pos hq, abs_of_nonneg hq,
        abs_of_nonneg (by exact_mod_cast Int.floor_nonneg.mpr hq)]
      exact_mod_cast Int.floor_le q
    · push_neg at hq
      have hceil : ⌈q⌉ ≤ 0 := Int.ceil_le.mpr (by exact_mod_cast hq.le)
      rw [if_neg (not_le.mpr hq), abs_of_neg hq,
        abs_of_nonpos (by exact_mod_cast hceil)]
      have := Int.le_ceil q
      linarith
  · rw [truncToZero]
    by_cases hq : 0 ≤ q
    · rw [if_pos hq, abs_of_nonneg (sub_nonneg.mpr (Int.floor_le q))]
      have := Int.sub_one_lt_floor q
      linarith [show ((⌊q⌋ : ℚ)) > q - 1 by exact_mod_cast this]
    · push_neg at hq
      rw [if_neg (not_le.mpr hq), abs_of_nonpos (by simpa using Int.le_ceil q)]
      have := Int.ceil_lt_add_one q
      have hc : ((⌈q⌉ : ℚ)) < q + 1 := by exact_mod_cast this
      linarith

/-- Claim C10 witness: a Volume of 10.9 is staged as the integer 10
(truncated toward zero, neither rounded nor rejected). -/
theorem volume_truncated_toward_zero_witness :
    stageVolume (PVal.num (109 / 10)) = Except.ok (some 10) ∧
    |((10 : ℤ) : ℚ)| ≤ |(109 / 10 : ℚ)| ∧
    |(109 / 10 : ℚ) - ((10 : ℤ) : ℚ)| < 1 := by
  have htr : truncToZero (109 / 10) = 10 := by norm_num [truncToZero]
  have h : (109 / 10 : ℚ) ≠ (truncToZero (109 / 10) : ℚ) := by
    rw [htr]; norm_num
  have hmain := volume_truncated_toward_zero (109 / 10) h
  rw [htr] at hmain
  exact ⟨hmain.1, hmain.2.1, hmain.2.2.1⟩

theorem foldl_upsert_fresh (rs : List StRow) :
    ∀ acc : List StRow, (rs.map Prod.fst).Nodup →
      (∀ r ∈ rs, ∀ p ∈ acc, p.1 ≠ r.1) →
      List.foldl upsert acc rs = acc ++ rs := by
  induction rs with
  | nil => intro acc _ _; simp
  | cons r rs ih =>
    intro acc hnd hdisj
    have hany : acc.any (fun p => p.1 = r.1) = false := by
      rw [List.any_eq_false]
      intro p hp
      simpa using hdisj r (List.mem_cons_self r rs) p hp
    have hnd1 : (rs.map Prod.fst).Nodup := by
      simpa using (List.nodup_cons.mp (by simpa using hnd)).2
    have hnotmem : r.1 ∉ rs.map Prod.fst := (List.nodup_cons.mp (by simpa using hnd)).1
    rw [List.foldl_cons, upsert, if_neg (by simp [hany])]
    rw [ih (acc ++ [r]) hnd1 ?_]
    · simp
    · intro s hs p hp
      rcases List.mem_append.mp hp with hpa | hpr
      · exact hdisj s (List.mem_cons_of_mem r hs) p hpa
      · have hpr1 : p = r := by simpa using hpr
        subst hpr1
        intro heq
        exact hnotmem (heq ▸ List.mem_map_of_mem Prod.fst hs)

/-- Claim C5: loading a FeatureRow series with pairwise-distinct
(symbol, date) keys into an empty staging table and merging into an
initially empty permanent table yields the permanent table holding
exactly those rows — one per key, feature columns equal to the staged
values — and leaves staging empty. -/
theorem roundtrip_load_merge (rs : List StRow) (h : (rs.map Prod.fst).Nodup) :
    (mergeStage (loadStage ⟨[], []⟩ rs)).perm = rs ∧
    (mergeStage (loadStage ⟨[], []⟩ rs)).stage = [] := by
  constructor
  · show List.foldl upsert [] ([] ++ rs) = rs
    rw [List.nil_append]
    simpa using foldl_upsert_fresh rs [] h (by simp)
  · rfl

/-- Claim C5 witness: the round trip evaluated on a concrete two-row
series with distinct keys. -/
theorem roundtrip_load_merge_witness :
    (stRowsEx.map Prod.fst).Nodup ∧
    (mergeStage (loadStage ⟨[], []⟩ stRowsEx)).perm = stRowsEx ∧
    (mergeStage (loadStage ⟨[], []⟩ stRowsEx)).stage = [] :=
  ⟨by decide, roundtrip_load_merge stRowsEx (by decide)⟩

/-- Claim C6: the merge is idempotent — a second merge run, finding
the staging table emptied by the first, leaves the permanent table as
the first run left it — and every merge leaves the staging table
empty. -/
theorem merge_idempotent_and_clears (db : DB) :
    (mergeStage (mergeStage db)).perm = (mergeStage db).perm ∧
    (mergeStage db).stage = [] ∧
    (mergeStage (mergeStage db)).stage = [] :=
  ⟨rfl, rfl, rfl⟩

/-- Claim C1 counterexample: a run over three files whose middle file
lacks the required columns does NOT complete — the `KeyError` from the
column selection propagates out of the driver (there is no handler in
`main`), so the third, valid file is never staged or merged. -/
theorem missing_columns_not_skipped :
    runMain [fileGood, fileBad, fileGood] = Except.error PErr.missingColumns := rfl

theorem runLoop_missing_columns (files : List RawCSV) :
    ∀ (i : ℕ) (db : DB) (n : ℕ), (∃ f ∈ files, colsOk f = false) →
      runLoop files i db n = Except.error PErr.missingColumns := by
  induction files with
  | nil => intro i db n h; simp at h
  | cons f rest ih =>
    intro i db n h
    by_cases hf : colsOk f = true
    · have hrest : ∃ g ∈ rest, colsOk g = false := by
        rcases h with ⟨g, hg, hcols⟩
        rcases List.mem_cons.mp hg with hgf | hgr
        · rw [hgf] at hcols; rw [hcols] at hf; exact absurd hf (by simp)
        · exact ⟨g, hgr, hcols⟩
      simp only [runLoop, readRawCsv, if_pos hf]
      by_cases he : (sortByDate (List.filter (fun r => r.dateOk) f.rows)).isEmpty = true
      · rw [if_pos he]
        exact ih (i + 1) db n hrest
      · rw [if_neg he]
        by_cases hp : ((sortByDate (List.filter (fun r => r.dateOk) f.rows)).filter
            (fun r => pdNotna r.close)).isEmpty = true
        · rw [if_pos hp]
          exact ih (i + 1) db n hrest
        · rw [if_neg hp]
          by_cases hi : i % 40 = 0
          · rw [if_pos hi, ih (i + 1) _ _ hrest]
          · rw [if_neg hi, ih (i + 1) _ _ hrest]
    · have hf0 : colsOk f = false := by revert hf; cases colsOk f <;> simp
      simp only [runLoop, readRawCsv, if_neg (by simp [hf0] : ¬colsOk f = true)]

/-- Claim C1 (amended): if any raw file's expected columns are missing
after header normalization, the resulting error propagates and the
whole pipeline run aborts with it — the file is not skipped and the
remaining files are not merged.  (Only files with an empty result are
skipped; a read/shape error has no handler in the driver.) -/
theorem missing_columns_abort (files : List RawCSV)
    (h : ∃ f ∈ files, colsOk f = false) :
    runMain files = Except.error PErr.missingColumns :=
  runLoop_missing_columns files 1 ⟨[], []⟩ 0 h

/-- Claim C1 witness: the amended behaviour on a one-file run whose
file lacks the required columns. -/
theorem missing_columns_abort_witness :
    (∃ f ∈ [fileBad], colsOk f = false) ∧
    runMain [fileBad] = Except.error PErr.missingColumns :=
  ⟨⟨fileBad, List.mem_singleton.mpr rfl, rfl⟩,
   missing_columns_abort [fileBad] ⟨fileBad, List.mem_singleton.mpr rfl, rfl⟩⟩

/-- Claim C4 counterexample: in a 42-file run whose 40th file is empty
(and therefore skipped), the `continue` jumps over the `i % 40` merge
check, so no periodic merge ever fires and the rows of 41 contributing
files sit in staging at the final merge — more than the claimed bound
of 40.  And in a run whose FIRST file is skipped followed by 40 good
files, a merge fires after only 39 contributing files, showing that
skipped files DO count toward the chunk boundary. -/
theorem chunk_boundary_skip_counterexample :
    runChunks filesBoundarySkip = some [41, 0] ∧ ¬(41 ≤ 40) ∧
    runChunks (fileEmpty :: List.replicate 40 fileGood) = some [39, 1, 0] :=
  ⟨rfl, by omega, rfl⟩

theorem stagedCounts_bound (files : List RawCSV) :
    ∀ (i cur : ℕ) (db : DB) (n : ℕ) (out : RunOut),
      (∀ f ∈ files, contributes f = true) → 1 ≤ i → cur ≤ (i - 1) % 40 →
      runLoop files i db n = Except.ok out →
      (stagedCountsAux out.trace cur).all (fun c => c ≤ 40) = true := by
  induction files with
  | nil =>
    intro i cur db n out _ hi hcur hrun
    simp only [runLoop, Except.ok.injEq] at hrun
    rw [← hrun]
    simp only [stagedCountsAux, List.all_cons, List.all_nil]
    have h39 : (i - 1) % 40 ≤ 39 := by omega
    simp only [Bool.and_eq_true, decide_eq_true_eq]
    exact ⟨by omega, by omega, trivial⟩
  | cons f rest ih =>
    intro i cur db n out hc hi hcur hrun
    have hf := hc f (List.mem_cons_self f rest)
    have hrest : ∀ g ∈ rest, contributes g = true :=
      fun g hg => hc g (List.mem_cons_of_mem f hg)
    rw [contributes, Bool.and_eq_true, Bool.and_eq_true] at hf
    obtain ⟨⟨h1, h2⟩, h3⟩ := hf
    rw [Bool.not_eq_true'] at h2 h3
    simp only [runLoop, readRawCsv, if_pos h1, h2, Bool.false_eq_true, if_false, h3] at hrun
    by_cases hi40 : i % 40 = 0
    · rw [if_pos hi40] at hrun
      cases hrec : runLoop rest (i + 1)
          (mergeStage (loadStage db (stRowsOf f.sym
            ((sortByDate (List.filter (fun r => r.dateOk) f.rows)).filter
              (fun r => pdNotna r.close)))))
          (n + ((sortByDate (List.filter (fun r => r.dateOk) f.rows)).filter
              (fun r => pdNotna r.close)).length) with
      | error e => rw [hrec] at hrun; simp at hrun
      | ok out1 =>
        rw [hrec] at hrun
        simp only [Except.ok.injEq] at hrun
        rw [← hrun]
        simp only [stagedCountsAux, List.all_cons, Bool.and_eq_true, decide_eq_true_eq]
        refine ⟨by omega, ?_⟩
        have := ih (i + 1) 0 _ _ out1 hrest (by omega) (by omega) hrec
        simpa using this
    · rw [if_neg hi40] at hrun
      cases hrec : runLoop rest (i + 1)
          (loadStage db (stRowsOf f.sym
            ((sortByDate (List.filter (fun r => r.dateOk) f.rows)).filter
              (fun r => pdNotna r.close))))
          (n + ((sortByDate (List.filter (fun r => r.dateOk) f.rows)).filter
              (fun r => pdNotna r.close)).length) with
      | error e => rw [hrec] at hrun; simp at hrun
      | ok out1 =>
        rw [hrec] at hrun
        simp only [Except.ok.injEq] at hrun
        rw [← hrun]
        simp only [stagedCountsAux]
        exact ih (i + 1) (cur + 1) _ _ out1 hrest (by omega) (by omega) hrec

/-- Claim C4 (amended): the driver's chunk counter is the 1-based
index over ALL enumerated files — skipped files included — and the
periodic merge fires only when that index is divisible by 40 on a file
that is not skipped; consequently the 40-file bound on rows staged
between consecutive merges holds whenever no file is skipped (a
skipped file on a chunk boundary can let more than 40 accumulate). -/
theorem chunk_bound_no_skip (files : List RawCSV) (l : List ℕ)
    (hc : ∀ f ∈ files, contributes f = true) (hr : runChunks files = some l) :
    l.all (fun c => c ≤ 40) = true := by
  rw [runChunks] at hr
  cases hrun : runMain files with
  | error e => rw [hrun] at hr; simp at hr
  | ok out =>
    rw [hrun] at hr
    simp only [Option.some.injEq] at hr
    rw [← hr]
    exact stagedCounts_bound files 1 0 ⟨[], []⟩ 0 out hc (le_refl 1) (by simp) hrun

/-- Claim C4 witness: the chunk bound evaluated on a two-file run with
no skipped file: both files land in the single final chunk of size
2 ≤ 40. -/
theorem chunk_bound_no_skip_witness :
    (∀ f ∈ [fileGood, fileGood], contributes f = true) ∧
    runChunks [fileGood, fileGood] = some [2, 0] ∧
    ([2, 0] : List ℕ).all (fun c => c ≤ 40) = true :=
  ⟨by decide, rfl, chunk_bound_no_skip [fileGood, fileGood] [2, 0] (by decide) rfl⟩

end WealthArena
